import Mathlib

/-!
Shallow embedding of the unstructured-to-json-llm-pipeline repository
(`src/models.py`, `src/pipeline.py`) and proofs about it.

Strings are modelled as `List Char` (the ASCII fragment of Python `str`);
Python floats are modelled as exact rationals (`ℚ`); fallible Python code
is modelled with `Option` / `Except`; Python exceptions that matter to the
control flow of `pipeline.py` are an explicit inductive type.
-/

/-- The backtick character (spelled via its code point). -/
def btick : Char := Char.ofNat 96

/-- The opening curly brace character (spelled via its code point). -/
def lbrace : Char := Char.ofNat 123

/-- The closing curly brace character (spelled via its code point). -/
def rbrace : Char := Char.ofNat 125

/-- `startsWith pat l` : does `l` begin with `pat`? (Python `str.startswith`.) -/
def startsWith : List Char → List Char → Bool
  | [], _ => true
  | _ :: _, [] => false
  | p :: ps, c :: cs => p = c && startsWith ps cs

/-- `containsSub pat hay` : does `pat` occur as a contiguous substring of `hay`?
(Python `pat in hay`.) -/
def containsSub (pat : List Char) : List Char → Bool
  | [] => startsWith pat []
  | c :: t => startsWith pat (c :: t) || containsSub pat t

/-- Python `str.lower`, restricted to the ASCII fragment. -/
def lowerStr (s : List Char) : List Char := s.map Char.toLower

/-- The two schema classes of `models.py` (`CompanyProfile` / `BuyerProfile`),
as selected by `infer_schema`. -/
inductive SchemaClass where
  | companyProfile
  | buyerProfile
deriving DecidableEq, Repr

/-- `SCHEMA_REGISTRY` from `models.py`: the keyword → schema mapping,
in Python dict insertion order. -/
def SCHEMA_REGISTRY : List (List Char × SchemaClass) :=
  [ ("company".toList, SchemaClass.companyProfile)
  , ("buyer".toList, SchemaClass.buyerProfile)
  , ("pe".toList, SchemaClass.buyerProfile)
  , ("capital".toList, SchemaClass.buyerProfile)
  , ("ventures".toList, SchemaClass.buyerProfile) ]

/-- Inner loop of `infer_schema`: first registry keyword occurring in the
(already lower-cased) name wins. -/
def inferFromRegistry (reg : List (List Char × SchemaClass)) (nameLower : List Char) :
    SchemaClass :=
  match reg with
  | [] => SchemaClass.companyProfile
  | (kw, sc) :: rest =>
    if containsSub kw nameLower then sc else inferFromRegistry rest nameLower

/-- `infer_schema` from `models.py`: lower-case the filename, scan
`SCHEMA_REGISTRY` in insertion order, default to `CompanyProfile`. -/
def infer_schema (filename : List Char) : SchemaClass :=
  inferFromRegistry SCHEMA_REGISTRY (lowerStr filename)

/-- Round-half-to-even on rationals (the rounding mode of Python `round`),
phrased over the numerator and denominator so that it evaluates inside the
kernel: with `n = ⌊q⌋`, the fractional part `q - n` is
`(q.num - n * q.den) / q.den`, and comparing it with `1/2` is comparing
`2 * (q.num - n * q.den)` with `q.den`. -/
def roundHalfToEven (q : ℚ) : ℤ :=
  if 2 * (q.num - Rat.floor q * q.den) < (q.den : ℤ) then Rat.floor q
  else if (q.den : ℤ) < 2 * (q.num - Rat.floor q * q.den) then Rat.floor q + 1
  else if Rat.floor q % 2 = 0 then Rat.floor q else Rat.floor q + 1

/-- Python `round(v, 4)` in the exact-rational model of floats:
round-half-to-even applied to `v * 10000`, divided by `10000`. -/
def pyRound4 (q : ℚ) : ℚ :=
  Rat.divInt (roundHalfToEven (mkRat (q.num * 10000) q.den)) 10000

/-- Structured company profile (`CompanyProfile` in `models.py`). -/
structure CompanyProfile where
  company_name : List Char
  industry : List Char
  headquarters : Option (List Char)
  employee_count : Option Int
  revenue_range : Option (List Char)
  key_products : List (List Char)
  description : List Char
  confidence_score : ℚ
deriving Repr

/-- `CompanyProfile.validate_confidence` (`models.py` lines 25-30): reject a
value outside `[0, 1]`, otherwise store it rounded to 4 decimal places. -/
def CompanyProfile.validate_confidence (v : ℚ) : Option ℚ :=
  if 0 ≤ v ∧ v ≤ 1 then some (pyRound4 v) else none

/-- JSON values as produced by Python `json.loads`: numbers are modelled as
exact rationals, objects as key-ordered association lists (Python dicts). -/
inductive JsonVal where
  | null
  | bool (b : Bool)
  | num (q : ℚ)
  | str (s : List Char)
  | arr (items : List JsonVal)
  | obj (fields : List (List Char × JsonVal))

/-- Structured buyer profile (`BuyerProfile` in `models.py`). `key_contacts`
is declared `list[dict]` in the source: each contact is an open JSON record. -/
structure BuyerProfile where
  company_name : List Char
  industry : List Char
  acquisition_interests : List (List Char)
  budget_range : Option (List Char)
  key_contacts : List (List (List Char × JsonVal))
  deal_history : List (List Char)
  confidence_score : ℚ

/-- `BuyerProfile.validate_confidence` (`models.py` lines 59-64), identical to
the company validator. -/
def BuyerProfile.validate_confidence (v : ℚ) : Option ℚ :=
  if 0 ≤ v ∧ v ≤ 1 then some (pyRound4 v) else none

/-- First-match association-list lookup (Python dict lookup; the parser below
keeps keys unique, last duplicate winning, as `json.loads` does). -/
def lookupKey : List (List Char × JsonVal) → List Char → Option JsonVal
  | [], _ => none
  | (k', v) :: t, k => if k' = k then some v else lookupKey t k

/-- Required `str` field: present and a JSON string, else a validation error.
(Pydantic v2 lax mode does not coerce non-strings to `str`.) -/
def getStrField (kvs : List (List Char × JsonVal)) (k : List Char) :
    Option (List Char) :=
  match lookupKey kvs k with
  | some (JsonVal.str s) => some s
  | _ => none

/-- `Optional[str] = None` field: missing or `null` becomes `None`; a string is
kept; anything else is a validation error. -/
def getOptStrField (kvs : List (List Char × JsonVal)) (k : List Char) :
    Option (Option (List Char)) :=
  match lookupKey kvs k with
  | none => some none
  | some JsonVal.null => some none
  | some (JsonVal.str s) => some (some s)
  | some _ => none

/-- `Optional[int] = None` field: missing or `null` becomes `None`; an
integral JSON number is kept (pydantic lax mode accepts integral floats);
anything else is a validation error. (Numeric-string coercion of pydantic lax
mode is outside the modelled fragment.) -/
def getOptIntField (kvs : List (List Char × JsonVal)) (k : List Char) :
    Option (Option Int) :=
  match lookupKey kvs k with
  | none => some none
  | some JsonVal.null => some none
  | some (JsonVal.num q) => if q.den = 1 then some (some q.num) else none
  | some _ => none

/-- Required `float` field: a JSON number, else a validation error. -/
def getFloatField (kvs : List (List Char × JsonVal)) (k : List Char) : Option ℚ :=
  match lookupKey kvs k with
  | some (JsonVal.num q) => some q
  | _ => none

/-- Element check for `list[str]` fields. -/
def asStr : JsonVal → Option (List Char)
  | JsonVal.str s => some s
  | _ => none

/-- Element check for `list[dict]` fields: each element must be a JSON object;
its values are unconstrained (`dict` has no value type in the source). -/
def asObj : JsonVal → Option (List (List Char × JsonVal))
  | JsonVal.obj f => some f
  | _ => none

/-- `list[str] = []` field: missing becomes `[]`; an array whose elements are
all strings is kept; anything else is a validation error. -/
def getStrListField (kvs : List (List Char × JsonVal)) (k : List Char) :
    Option (List (List Char)) :=
  match lookupKey kvs k with
  | none => some []
  | some (JsonVal.arr xs) => xs.mapM asStr
  | some _ => none

/-- `list[dict] = []` field (`key_contacts`): missing becomes `[]`; an array
whose elements are all objects is kept; anything else is a validation error. -/
def getDictListField (kvs : List (List Char × JsonVal)) (k : List Char) :
    Option (List (List (List Char × JsonVal))) :=
  match lookupKey kvs k with
  | none => some []
  | some (JsonVal.arr xs) => xs.mapM asObj
  | some _ => none

/-- Pydantic validation of a parsed JSON object against `CompanyProfile`
(`schema_class(**extracted)` in `pipeline.py`). Unknown keys are ignored
(pydantic v2 default `extra="ignore"`); the `confidence_score` field
validator runs after field type validation. -/
def validateCompanyProfile (kvs : List (List Char × JsonVal)) :
    Option CompanyProfile := do
  let name ← getStrField kvs "company_name".toList
  let ind ← getStrField kvs "industry".toList
  let hq ← getOptStrField kvs "headquarters".toList
  let ec ← getOptIntField kvs "employee_count".toList
  let rr ← getOptStrField kvs "revenue_range".toList
  let kp ← getStrListField kvs "key_products".toList
  let desc ← getStrField kvs "description".toList
  let rawConf ← getFloatField kvs "confidence_score".toList
  let conf ← CompanyProfile.validate_confidence rawConf
  some ⟨name, ind, hq, ec, rr, kp, desc, conf⟩

/-- Pydantic validation of a parsed JSON object against `BuyerProfile`. -/
def validateBuyerProfile (kvs : List (List Char × JsonVal)) :
    Option BuyerProfile := do
  let name ← getStrField kvs "company_name".toList
  let ind ← getStrField kvs "industry".toList
  let ai ← getStrListField kvs "acquisition_interests".toList
  let br ← getOptStrField kvs "budget_range".toList
  let kc ← getDictListField kvs "key_contacts".toList
  let dh ← getStrListField kvs "deal_history".toList
  let rawConf ← getFloatField kvs "confidence_score".toList
  let conf ← BuyerProfile.validate_confidence rawConf
  some ⟨name, ind, ai, br, kc, dh, conf⟩

/-- The declared field names of `CompanyProfile`, in declaration order. -/
def companyFieldNames : List (List Char) :=
  [ "company_name".toList, "industry".toList, "headquarters".toList
  , "employee_count".toList, "revenue_range".toList, "key_products".toList
  , "description".toList, "confidence_score".toList ]

/-- The declared field names of `BuyerProfile`, in declaration order. -/
def buyerFieldNames : List (List Char) :=
  [ "company_name".toList, "industry".toList, "acquisition_interests".toList
  , "budget_range".toList, "key_contacts".toList, "deal_history".toList
  , "confidence_score".toList ]

/-- Restriction of a parsed object to a set of declared keys. -/
def restrictKeys (names : List (List Char)) (kvs : List (List Char × JsonVal)) :
    List (List Char × JsonVal) :=
  kvs.filter (fun kv => decide (kv.1 ∈ names))

/-- `model_dump_json` for `CompanyProfile` as a JSON value: the canonical
serialization holds exactly the declared fields, in declaration order. -/
def dumpCompanyProfile (p : CompanyProfile) : JsonVal :=
  JsonVal.obj
    [ ("company_name".toList, JsonVal.str p.company_name)
    , ("industry".toList, JsonVal.str p.industry)
    , ("headquarters".toList,
        (p.headquarters.map JsonVal.str).getD JsonVal.null)
    , ("employee_count".toList,
        (p.employee_count.map (fun n => JsonVal.num (n : ℚ))).getD JsonVal.null)
    , ("revenue_range".toList,
        (p.revenue_range.map JsonVal.str).getD JsonVal.null)
    , ("key_products".toList, JsonVal.arr (p.key_products.map JsonVal.str))
    , ("description".toList, JsonVal.str p.description)
    , ("confidence_score".toList, JsonVal.num p.confidence_score) ]

/-- `model_dump_json` for `BuyerProfile` as a JSON value. -/
def dumpBuyerProfile (p : BuyerProfile) : JsonVal :=
  JsonVal.obj
    [ ("company_name".toList, JsonVal.str p.company_name)
    , ("industry".toList, JsonVal.str p.industry)
    , ("acquisition_interests".toList,
        JsonVal.arr (p.acquisition_interests.map JsonVal.str))
    , ("budget_range".toList, (p.budget_range.map JsonVal.str).getD JsonVal.null)
    , ("key_contacts".toList, JsonVal.arr (p.key_contacts.map JsonVal.obj))
    , ("deal_history".toList, JsonVal.arr (p.deal_history.map JsonVal.str))
    , ("confidence_score".toList, JsonVal.num p.confidence_score) ]

/-- The key list of a serialized JSON object (`[]` for non-objects). -/
def jsonObjKeys : JsonVal → List (List Char)
  | JsonVal.obj fields => fields.map Prod.fst
  | _ => []

/-- The Python exceptions relevant to `pipeline.py`'s control flow. The first
five are the classes named in `extract_to_json`'s `except` clauses
(`pydantic.ValidationError` subclasses `ValueError`, so it is caught by the
`ValueError` clause). The remaining ones are not named there:
`httpx.ConnectError` / `httpx.ReadTimeout` subclass `httpx.RequestError`
(transport-level failures), and `IndexError`, `OSError`,
`UnicodeDecodeError`, `sqlite3.OperationalError` arise elsewhere. -/
inductive PyExc where
  | httpStatusError (status : Nat)
  | jsonDecodeError
  | keyError
  | valueError
  | validationError
  | connectError
  | readTimeout
  | indexError
  | osError
  | unicodeDecodeError
  | operationalError
deriving DecidableEq, Repr

/-- Whether `extract_to_json`'s `except (httpx.HTTPStatusError)` /
`except (json.JSONDecodeError, KeyError, ValueError)` clauses catch the
exception, per the Python class hierarchy. -/
def PyExc.isCaught : PyExc → Bool
  | PyExc.httpStatusError _ => true
  | PyExc.jsonDecodeError => true
  | PyExc.keyError => true
  | PyExc.valueError => true
  | PyExc.validationError => true
  | _ => false

/-- `type(exc).__name__`, used to build failure status strings. -/
def PyExc.typeName : PyExc → List Char
  | PyExc.httpStatusError _ => "HTTPStatusError".toList
  | PyExc.jsonDecodeError => "JSONDecodeError".toList
  | PyExc.keyError => "KeyError".toList
  | PyExc.valueError => "ValueError".toList
  | PyExc.validationError => "ValidationError".toList
  | PyExc.connectError => "ConnectError".toList
  | PyExc.readTimeout => "ReadTimeout".toList
  | PyExc.indexError => "IndexError".toList
  | PyExc.osError => "OSError".toList
  | PyExc.unicodeDecodeError => "UnicodeDecodeError".toList
  | PyExc.operationalError => "OperationalError".toList

/-- `MAX_RETRIES` from `pipeline.py`. -/
def MAX_RETRIES : Nat := 2

/-- Result of one call of `extract_to_json`, with the number of attempts that
were actually made: a validated profile, the final `RuntimeError` raised after
the loop (carrying the last attempt's exception), or an exception that escaped
the `except` clauses and propagated out of the loop. -/
inductive ExtractOutcome (α : Type) where
  | ok (profile : α) (attempts : Nat)
  | runtimeError (lastExc : Option PyExc) (attempts : Nat)
  | raised (exc : PyExc) (attempts : Nat)
deriving DecidableEq, Repr

/-- The number of attempts an extraction outcome records. -/
def ExtractOutcome.attempts {α : Type} : ExtractOutcome α → Nat
  | ExtractOutcome.ok _ a => a
  | ExtractOutcome.runtimeError _ a => a
  | ExtractOutcome.raised _ a => a

/-- The `for attempt in range(1, MAX_RETRIES + 2)` loop of `extract_to_json`:
`remaining` attempts are left, `made` attempts were made, `last` is
`last_exc`. An attempt is one request/parse/validate cycle, modelled as a
function from the attempt number to its outcome. A caught exception updates
`last_exc` and continues; an uncaught one propagates immediately. -/
def extractAttemptLoop {α : Type} (client : Nat → Except PyExc α) :
    Nat → Nat → Option PyExc → ExtractOutcome α
  | 0, made, last => ExtractOutcome.runtimeError last made
  | remaining + 1, made, _last =>
    match client (made + 1) with
    | Except.ok p => ExtractOutcome.ok p (made + 1)
    | Except.error e =>
      if e.isCaught then extractAttemptLoop client remaining (made + 1) (some e)
      else ExtractOutcome.raised e (made + 1)

/-- `extract_to_json` (`pipeline.py` lines 111-160), abstracted over one
attempt's request/parse/validate cycle: runs up to `MAX_RETRIES + 1` attempts
and raises `RuntimeError` referencing the last exception if all fail. -/
def extract_to_json {α : Type} (client : Nat → Except PyExc α) : ExtractOutcome α :=
  extractAttemptLoop client (MAX_RETRIES + 1) 0 none

/-- A validated profile of either schema (what `extract_to_json` returns). -/
inductive ProfileVal where
  | company (p : CompanyProfile)
  | buyer (p : BuyerProfile)

/-- `profile.company_name` across the two schemas. -/
def ProfileVal.company_name : ProfileVal → List Char
  | ProfileVal.company p => p.company_name
  | ProfileVal.buyer p => p.company_name

/-- `profile.confidence_score` across the two schemas. -/
def ProfileVal.confidence_score : ProfileVal → ℚ
  | ProfileVal.company p => p.confidence_score
  | ProfileVal.buyer p => p.confidence_score

/-- The per-file result summary dict built by `process_file`. -/
structure ResultSummary where
  file : List Char
  company : List Char
  schemaName : List Char
  confidence : ℚ
  status : List Char
deriving DecidableEq, Repr

/-- The `"✅ OK"` status string of a success summary. -/
def okStatus : List Char := "✅ OK".toList

/-- The placeholder company string of a failure summary. -/
def dashCompany : List Char := "—".toList

/-- The failure status string: `"❌ "` followed by `type(exc).__name__`. -/
def failStatus (e : PyExc) : List Char := "❌ ".toList ++ e.typeName

/-- The failure summary dict of `process_file`'s `except` block. -/
def failureSummary (fileName schemaName : List Char) (e : PyExc) : ResultSummary :=
  ⟨fileName, dashCompany, schemaName, 0, failStatus e⟩

/-- `process_file` (`pipeline.py` lines 215-244). `readRes` is the outcome of
`filepath.read_text(...)`, which the source runs before entering its
`try` block; `client` is the per-attempt extraction cycle for a given raw
text; `store` is the outcome of `store_result`. Every exception raised inside
the `try` block (including ones that escape `extract_to_json`) is caught by
`except Exception` and turned into a failure summary; an exception from the
read itself propagates. -/
def process_file (fileName schemaName : List Char)
    (readRes : Except PyExc (List Char))
    (client : List Char → Nat → Except PyExc ProfileVal)
    (store : ProfileVal → Except PyExc Unit) :
    Except PyExc ResultSummary :=
  match readRes with
  | Except.error e => Except.error e
  | Except.ok raw =>
    match extract_to_json (client raw) with
    | ExtractOutcome.ok p _ =>
      match store p with
      | Except.ok _ =>
        Except.ok ⟨fileName, p.company_name, schemaName, p.confidence_score, okStatus⟩
      | Except.error e => Except.ok (failureSummary fileName schemaName e)
    | ExtractOutcome.runtimeError _ _ =>
      Except.ok ⟨fileName, dashCompany, schemaName, 0,
        "❌ RuntimeError".toList⟩
    | ExtractOutcome.raised e _ => Except.ok (failureSummary fileName schemaName e)

/-- The whitespace class of Python's regex `\s` (ASCII fragment). -/
def isPySpace (c : Char) : Bool :=
  c = ' ' || c = '\t' || c = '\n' || c = '\r' ||
  c = Char.ofNat 11 || c = Char.ofNat 12

/-- The whitespace accepted between tokens by Python `json.loads`. -/
def isJsonWs (c : Char) : Bool :=
  c = ' ' || c = '\t' || c = '\n' || c = '\r'

/-- The `(?:json)?` part of the fence regex: greedily drop a literal `json`
tag if present. -/
def stripJsonTag (l : List Char) : List Char :=
  match l with
  | a :: b :: c :: d :: r =>
    if a = 'j' ∧ b = 's' ∧ c = 'o' ∧ d = 'n' then r else l
  | _ => l

/-- Fuel-indexed worker for `subFences`; the scan consumes at least one
character per step, so `l.length` fuel always suffices. -/
def subFencesF : Nat → List Char → List Char
  | 0, l => l
  | _ + 1, [] => []
  | fuel + 1, c :: t =>
    if c = btick ∧ t.head? = some btick ∧ t.tail.head? = some btick then
      subFencesF fuel ((stripJsonTag t.tail.tail).dropWhile isPySpace)
    else c :: subFencesF fuel t

/-- Python `re.sub(r"```(?:json)?\s*", "", raw)` from
`extract_json_from_text`: scan left to right; at a triple backtick, drop it,
an optional `json` tag, and following whitespace, and continue after the
match; otherwise keep the character. -/
def subFences (l : List Char) : List Char := subFencesF l.length l

/-- Python `str.strip()` (leading part). -/
def lstripWs (l : List Char) : List Char := l.dropWhile isPySpace

/-- Python `str.strip()` (trailing part). -/
def rstripWs (l : List Char) : List Char := (l.reverse.dropWhile isPySpace).reverse

/-- Python `str.strip()`. -/
def pyStrip (l : List Char) : List Char := lstripWs (rstripWs l)

/-- Python `str.rstrip` with a backtick argument. -/
def rstripBticks (l : List Char) : List Char :=
  (l.reverse.dropWhile (fun c => decide (c = btick))).reverse

/-- The cleaning pipeline of `extract_json_from_text`:
`re.sub(...).strip().rstrip(backtick).strip()`. -/
def cleanResponse (raw : List Char) : List Char :=
  pyStrip (rstripBticks (pyStrip (subFences raw)))

/-- Python `re.search(r"\{.*\}", cleaned, re.DOTALL)`: the greedy span from
the first opening brace to the last closing brace after it, if any. -/
def braceSpan (l : List Char) : Option (List Char) :=
  let pre := l.dropWhile (fun c => decide (c ≠ lbrace))
  let revDropped := pre.reverse.dropWhile (fun c => decide (c ≠ rbrace))
  if revDropped = [] then none else some revDropped.reverse

/-- JSON string escapes supported by the modelled `json.loads` fragment
(`\uXXXX` escapes are outside the fragment). -/
def escChar : Char → Option Char
  | '"' => some '"'
  | '\\' => some '\\'
  | '/' => some '/'
  | 'b' => some (Char.ofNat 8)
  | 'f' => some (Char.ofNat 12)
  | 'n' => some '\n'
  | 'r' => some '\r'
  | 't' => some '\t'
  | _ => none

/-- Parse the body of a JSON string after the opening quote; returns the
decoded content and the rest after the closing quote. -/
def parseStringBody : List Char → Option (List Char × List Char)
  | [] => none
  | c :: rest =>
    if c = '"' then some ([], rest)
    else if c = '\\' then
      match rest with
      | [] => none
      | e :: rest2 =>
        match escChar e with
        | none => none
        | some ce => (parseStringBody rest2).map (fun sr => (ce :: sr.1, sr.2))
    else if c.toNat < 32 then none
    else (parseStringBody rest).map (fun sr => (c :: sr.1, sr.2))

/-- Decimal digits to a natural number. -/
def digitsToNat (ds : List Char) : Nat :=
  ds.foldl (fun a c => 10 * a + (c.toNat - 48)) 0

/-- Parse a JSON number token (integer or fraction; the exponent form is
outside the modelled fragment), enforcing JSON's no-leading-zero rule. -/
def parseNumberTok (l : List Char) : Option (ℚ × List Char) :=
  let negRes : Bool × List Char :=
    match l with
    | c :: t => if c = '-' then (true, t) else (false, l)
    | [] => (false, l)
  let l1 := negRes.2
  let ds := l1.takeWhile Char.isDigit
  let r1 := l1.dropWhile Char.isDigit
  if ds = [] then none
  else if ds.head? = some '0' ∧ 1 < ds.length then none
  else
    let signed : ℚ → ℚ := fun m => if negRes.1 then -m else m
    match r1 with
    | c :: r2 =>
      if c = '.' then
        let fs := r2.takeWhile Char.isDigit
        let r3 := r2.dropWhile Char.isDigit
        if fs = [] then none
        else
          some (signed (mkRat
            ((digitsToNat ds : ℤ) * ((10 : ℤ) ^ fs.length) + (digitsToNat fs : ℤ))
            (10 ^ fs.length)), r3)
      else some (signed (digitsToNat ds : ℚ), r1)
    | [] => some (signed (digitsToNat ds : ℚ), r1)

/-- Python dict insertion while parsing an object: a repeated key keeps its
original position and takes the new value (`json.loads` duplicate-key
behavior: the last value wins). -/
def insertKV (k : List Char) (v : JsonVal) :
    List (List Char × JsonVal) → List (List Char × JsonVal)
  | [] => [(k, v)]
  | (k', v') :: t => if k' = k then (k, v) :: t else (k', v') :: insertKV k v t

mutual

/-- Fuel-indexed recursive-descent parser for the modelled `json.loads`
fragment: one JSON value plus the unconsumed rest. -/
def parseJsonValue : Nat → List Char → Option (JsonVal × List Char)
  | 0, _ => none
  | fuel + 1, l =>
    match l.dropWhile isJsonWs with
    | [] => none
    | c :: rest =>
      if c = 'n' then
        if startsWith "ull".toList rest then some (JsonVal.null, rest.drop 3)
        else none
      else if c = 't' then
        if startsWith "rue".toList rest then
          some (JsonVal.bool true, rest.drop 3)
        else none
      else if c = 'f' then
        if startsWith "alse".toList rest then
          some (JsonVal.bool false, rest.drop 4)
        else none
      else if c = '"' then
        (parseStringBody rest).map (fun sr => (JsonVal.str sr.1, sr.2))
      else if c = lbrace then
        parseObjFields fuel rest [] true
      else if c = '[' then
        parseArrItems fuel rest [] true
      else
        (parseNumberTok (c :: rest)).map (fun nr => (JsonVal.num nr.1, nr.2))

/-- Object members after `{` (when `first`) or after a member separator. -/
def parseObjFields : Nat → List Char → List (List Char × JsonVal) → Bool →
    Option (JsonVal × List Char)
  | 0, _, _, _ => none
  | fuel + 1, l, acc, first =>
    match l.dropWhile isJsonWs with
    | [] => none
    | c :: rest =>
      if c = rbrace ∧ first then some (JsonVal.obj acc, rest)
      else if c = '"' then
        match parseStringBody rest with
        | none => none
        | some (key, r1) =>
          match r1.dropWhile isJsonWs with
          | ':' :: r2 =>
            match parseJsonValue fuel r2 with
            | none => none
            | some (v, r3) =>
              match r3.dropWhile isJsonWs with
              | ',' :: r4 => parseObjFields fuel r4 (insertKV key v acc) false
              | d :: r4 =>
                if d = rbrace then some (JsonVal.obj (insertKV key v acc), r4)
                else none
              | [] => none
          | _ => none
      else none

/-- Array items after `[` (when `first`) or after an item separator. -/
def parseArrItems : Nat → List Char → List JsonVal → Bool →
    Option (JsonVal × List Char)
  | 0, _, _, _ => none
  | fuel + 1, l, acc, first =>
    match l.dropWhile isJsonWs with
    | [] => none
    | c :: rest =>
      if c = ']' ∧ first then some (JsonVal.arr acc.reverse, rest)
      else
        match parseJsonValue fuel (c :: rest) with
        | none => none
        | some (v, r1) =>
          match r1.dropWhile isJsonWs with
          | ',' :: r2 => parseArrItems fuel r2 (v :: acc) false
          | ']' :: r2 => some (JsonVal.arr (v :: acc).reverse, r2)
          | _ => none

end

/-- Python `json.loads` (modelled fragment): exactly one JSON value with only
whitespace around it. -/
def jsonLoads (l : List Char) : Option JsonVal :=
  match parseJsonValue (l.length + 1) l with
  | some (v, rest) => if rest.dropWhile isJsonWs = [] then some v else none
  | none => none

/-- The two failures of `extract_json_from_text`: the explicit
`ValueError` carrying the `raw[:200]` excerpt, and `json.JSONDecodeError`
from `json.loads`, which carries the whole offending document (and a
position) but no bounded excerpt. -/
inductive ParseErr where
  | noJsonFound (excerpt : List Char)
  | jsonDecodeError (doc : List Char)
deriving DecidableEq, Repr

/-- The text carried by a parse failure. -/
def ParseErr.payload : ParseErr → List Char
  | ParseErr.noJsonFound e => e
  | ParseErr.jsonDecodeError d => d

/-- `extract_json_from_text` (`pipeline.py` lines 100-108): strip markdown
fences, find the greedy first-brace-to-last-brace span, and json-parse it. -/
def extract_json_from_text (raw : List Char) : Except ParseErr JsonVal :=
  match braceSpan (cleanResponse raw) with
  | none => Except.error (ParseErr.noJsonFound (raw.take 200))
  | some span =>
    match jsonLoads span with
    | none => Except.error (ParseErr.jsonDecodeError span)
    | some v => Except.ok v

/-- Opening markdown fence with a `json` tag and a newline. -/
def fenceOpen : List Char := [btick, btick, btick, 'j', 's', 'o', 'n', '\n']

/-- Closing markdown fence on its own line. -/
def fenceClose : List Char := ['\n', btick, btick, btick]

/-- A response consisting of `j` wrapped in markdown code fences. -/
def fenceWrap (j : List Char) : List Char := fenceOpen ++ j ++ fenceClose

/-- A sample validated company profile. -/
def sampleCompany : CompanyProfile :=
  ⟨"Acme".toList, "Tech".toList, none, none, none, [], "desc".toList,
    mkRat 92 100⟩

/-- A sample validated profile, as returned by a successful extraction. -/
def sampleProfile : ProfileVal := ProfileVal.company sampleCompany

/-- A client whose first attempt raises `httpx.ConnectError` (a transport
failure, `httpx.RequestError` subclass) and whose later attempts succeed. -/
def c2FailingClient : Nat → Except PyExc ProfileVal :=
  fun n => if n = 1 then Except.error PyExc.connectError else Except.ok sampleProfile

/-- A client whose every attempt times out at the transport level. -/
def c3TimeoutClient : Nat → Except PyExc ProfileVal :=
  fun _ => Except.error PyExc.readTimeout

/-- A client whose every attempt gets an HTTP 500 response. -/
def c3Http500Client : Nat → Except PyExc ProfileVal :=
  fun _ => Except.error (PyExc.httpStatusError 500)

/-- A client whose every attempt fails to parse the response body. -/
def c3ParseFailClient : Nat → Except PyExc ProfileVal :=
  fun _ => Except.error PyExc.jsonDecodeError

/-- A client whose every attempt fails schema validation. -/
def c3ValidationFailClient : Nat → Except PyExc ProfileVal :=
  fun _ => Except.error PyExc.validationError

/-- A `filepath.read_text` outcome that raises `UnicodeDecodeError`
(a non-UTF-8 input file). -/
def c7ReadFailure : Except PyExc (List Char) := Except.error PyExc.unicodeDecodeError

/-- A client that always fails with a `ValueError`. -/
def alwaysParseFailClient : List Char → Nat → Except PyExc ProfileVal :=
  fun _ _ => Except.error PyExc.valueError

/-- A client that extracts `sampleProfile` on the first attempt. -/
def sampleOkClient : List Char → Nat → Except PyExc ProfileVal :=
  fun _ _ => Except.ok sampleProfile

/-- A storage sink whose write succeeds. -/
def okStore : ProfileVal → Except PyExc Unit := fun _ => Except.ok ()

/-- A storage sink whose write raises `sqlite3.OperationalError`. -/
def failStore : ProfileVal → Except PyExc Unit :=
  fun _ => Except.error PyExc.operationalError

/-- A parsed buyer object whose `key_contacts` entry carries a non-string
value (`"years": 7`). -/
def buyerContactsObj : List (List Char × JsonVal) :=
  [ ("company_name".toList, JsonVal.str "Initech".toList)
  , ("industry".toList, JsonVal.str "PE".toList)
  , ("key_contacts".toList, JsonVal.arr
      [JsonVal.obj [ ("name".toList, JsonVal.str "Bill".toList)
                   , ("years".toList, JsonVal.num 7) ]])
  , ("confidence_score".toList, JsonVal.num (mkRat 87 100)) ]

/-- The buyer profile that `buyerContactsObj` validates to. -/
def buyerContactsProfile : BuyerProfile :=
  ⟨"Initech".toList, "PE".toList, [], none,
    [[ ("name".toList, JsonVal.str "Bill".toList)
     , ("years".toList, JsonVal.num 7) ]],
    [], mkRat 87 100⟩

/-- A parsed company object with an undeclared extra key. -/
def companyObjWithExtra : List (List Char × JsonVal) :=
  [ ("company_name".toList, JsonVal.str "Acme".toList)
  , ("extra_field".toList, JsonVal.num 42)
  , ("industry".toList, JsonVal.str "Tech".toList)
  , ("description".toList, JsonVal.str "desc".toList)
  , ("confidence_score".toList, JsonVal.num (mkRat 92 100)) ]

/-- A 222-character LLM response whose brace span is not valid JSON. -/
def c5LongInput : List Char := lbrace :: (List.replicate 220 'x' ++ [rbrace])

/-! ## Helper lemmas about the rounding model -/

theorem ratFloor_eq_floor (q : ℚ) : Rat.floor q = ⌊q⌋ := by
  rw [Rat.floor_def']
  exact Rat.floor_def.symm

theorem num_eq_self_mul_den (q : ℚ) : (q.num : ℚ) = q * (q.den : ℚ) := by
  have hden : ((q.den : ℚ)) ≠ 0 := by
    have := q.pos
    exact_mod_cast Nat.pos_iff_ne_zero.mp this
  exact (div_eq_iff hden).mp (Rat.num_div_den q)

theorem frac_lt_half_iff (q : ℚ) (n : ℤ) :
    (2 * (q.num - n * q.den) < (q.den : ℤ)) ↔ q - (n : ℚ) < 1/2 := by
  have hden : (0 : ℚ) < (q.den : ℚ) := by exact_mod_cast q.pos
  have hcast : (2 * (q.num - n * q.den) < (q.den : ℤ)) ↔
      ((2 * (q.num - n * q.den) : ℤ) : ℚ) < ((q.den : ℤ) : ℚ) := by
    exact_mod_cast Iff.rfl
  rw [hcast]
  push_cast
  rw [num_eq_self_mul_den q]
  constructor <;> intro h <;> nlinarith

theorem half_lt_frac_iff (q : ℚ) (n : ℤ) :
    ((q.den : ℤ) < 2 * (q.num - n * q.den)) ↔ 1/2 < q - (n : ℚ) := by
  have hden : (0 : ℚ) < (q.den : ℚ) := by exact_mod_cast q.pos
  have hcast : ((q.den : ℤ) < 2 * (q.num - n * q.den)) ↔
      (((q.den : ℤ) : ℚ)) < ((2 * (q.num - n * q.den) : ℤ) : ℚ) := by
    exact_mod_cast Iff.rfl
  rw [hcast]
  push_cast
  rw [num_eq_self_mul_den q]
  constructor <;> intro h <;> nlinarith

/-- The numerator-level rounding of the model is the textbook
round-half-to-even of Python `round`. -/
theorem roundHalfToEven_eq (q : ℚ) :
    roundHalfToEven q =
      if q - (⌊q⌋ : ℚ) < 1/2 then ⌊q⌋
      else if 1/2 < q - (⌊q⌋ : ℚ) then ⌊q⌋ + 1
      else if ⌊q⌋ % 2 = 0 then ⌊q⌋ else ⌊q⌋ + 1 := by
  unfold roundHalfToEven
  simp only [ratFloor_eq_floor, frac_lt_half_iff, half_lt_frac_iff]

theorem roundHalfToEven_nonneg (q : ℚ) (h : 0 ≤ q) : 0 ≤ roundHalfToEven q := by
  have hfl : (0 : ℤ) ≤ ⌊q⌋ := Int.floor_nonneg.mpr h
  unfold roundHalfToEven
  split_ifs <;> rw [ratFloor_eq_floor] <;> omega

theorem roundHalfToEven_le (q : ℚ) (M : ℤ) (h : q ≤ (M : ℚ)) :
    roundHalfToEven q ≤ M := by
  have hfl : ⌊q⌋ ≤ M := by
    have h2 : ⌊q⌋ ≤ ⌊(M : ℚ)⌋ := Int.floor_le_floor h
    simpa using h2
  have hposden : (0 : ℤ) < (q.den : ℤ) := by exact_mod_cast q.pos
  have hkey : 0 < q.num - Rat.floor q * q.den → Rat.floor q + 1 ≤ M := by
    intro hk
    rw [ratFloor_eq_floor] at hk
    have hc : ((⌊q⌋ * q.den : ℤ) : ℚ) < (q.num : ℚ) := by exact_mod_cast by omega
    push_cast at hc
    rw [num_eq_self_mul_den q] at hc
    have hden : (0 : ℚ) < (q.den : ℚ) := by exact_mod_cast q.pos
    have hnq : ((⌊q⌋ : ℚ)) < q := by nlinarith
    have hqM : ((⌊q⌋ : ℚ)) < (M : ℚ) := lt_of_lt_of_le hnq h
    have : ⌊q⌋ < M := by exact_mod_cast hqM
    rw [ratFloor_eq_floor]
    omega
  unfold roundHalfToEven
  split_ifs with h1 h2 h3
  · rw [ratFloor_eq_floor]; exact hfl
  · exact hkey (by omega)
  · rw [ratFloor_eq_floor]; exact hfl
  · exact hkey (by omega)

theorem mkRat_scale_eq (q : ℚ) : mkRat (q.num * 10000) q.den = q * 10000 := by
  have hden : ((q.den : ℚ)) ≠ 0 := by
    have := q.pos
    exact_mod_cast Nat.pos_iff_ne_zero.mp this
  rw [Rat.mkRat_eq_div]
  push_cast
  rw [num_eq_self_mul_den q]
  field_simp
  rw [num_eq_self_mul_den q]
  ring

theorem pyRound4_bounds (q : ℚ) (h0 : 0 ≤ q) (h1 : q ≤ 1) :
    0 ≤ pyRound4 q ∧ pyRound4 q ≤ 1 := by
  unfold pyRound4
  rw [mkRat_scale_eq]
  have hR0 : 0 ≤ roundHalfToEven (q * 10000) :=
    roundHalfToEven_nonneg _ (by positivity)
  have hR1 : roundHalfToEven (q * 10000) ≤ 10000 :=
    roundHalfToEven_le _ 10000 (by push_cast; nlinarith)
  rw [Rat.divInt_eq_div]
  constructor
  · positivity
  · rw [div_le_one (by norm_num)]
    exact_mod_cast hR1

/-! ## C1: confidence validation -/

/-- C1: for every confidence value `v`, constructing a `CompanyProfile` or
`BuyerProfile` with `v` outside `[0,1]` fails validation (the value is
rejected, never clamped), and with `v` inside `[0,1]` the construction
succeeds and the stored `confidence_score` equals `v` rounded to 4 decimal
places; consequently every validated profile's stored score lies in `[0,1]`
and equals the rounding of the submitted in-range value. -/
theorem confidence_validation_C1 (v : ℚ) :
    ((0 ≤ v ∧ v ≤ 1) →
      CompanyProfile.validate_confidence v = some (pyRound4 v)
      ∧ BuyerProfile.validate_confidence v = some (pyRound4 v))
    ∧ (¬ (0 ≤ v ∧ v ≤ 1) →
      CompanyProfile.validate_confidence v = none
      ∧ BuyerProfile.validate_confidence v = none)
    ∧ (∀ kvs p, validateCompanyProfile kvs = some p →
        ∃ w, getFloatField kvs "confidence_score".toList = some w
          ∧ 0 ≤ w ∧ w ≤ 1 ∧ p.confidence_score = pyRound4 w
          ∧ 0 ≤ p.confidence_score ∧ p.confidence_score ≤ 1)
    ∧ (∀ kvs p, validateBuyerProfile kvs = some p →
        ∃ w, getFloatField kvs "confidence_score".toList = some w
          ∧ 0 ≤ w ∧ w ≤ 1 ∧ p.confidence_score = pyRound4 w
          ∧ 0 ≤ p.confidence_score ∧ p.confidence_score ≤ 1) := by
  refine ⟨?_, ?_, ?_, ?_⟩
  · intro h
    exact ⟨by simp [CompanyProfile.validate_confidence, h],
      by simp [BuyerProfile.validate_confidence, h]⟩
  · intro h
    exact ⟨by simp [CompanyProfile.validate_confidence, h],
      by simp [BuyerProfile.validate_confidence, h]⟩
  · intro kvs p hp
    simp only [validateCompanyProfile, bind, Option.bind_eq_some,
      Option.some.injEq] at hp
    obtain ⟨name, hname, ind, hind, hq, hhq, ec, hec, rr, hrr, kp, hkp,
      desc, hdesc, w, hw, conf, hconf, hfin⟩ := hp
    by_cases h0 : 0 ≤ w ∧ w ≤ 1
    · simp only [CompanyProfile.validate_confidence, if_pos h0,
        Option.some.injEq] at hconf
      subst hconf
      subst hfin
      exact ⟨w, hw, h0.1, h0.2, rfl,
        (pyRound4_bounds w h0.1 h0.2).1, (pyRound4_bounds w h0.1 h0.2).2⟩
    · simp [CompanyProfile.validate_confidence, if_neg h0] at hconf
  · intro kvs p hp
    simp only [validateBuyerProfile, bind, Option.bind_eq_some,
      Option.some.injEq] at hp
    obtain ⟨name, hname, ind, hind, ai, hai, br, hbr, kc, hkc, dh, hdh,
      w, hw, conf, hconf, hfin⟩ := hp
    by_cases h0 : 0 ≤ w ∧ w ≤ 1
    · simp only [BuyerProfile.validate_confidence, if_pos h0,
        Option.some.injEq] at hconf
      subst hconf
      subst hfin
      exact ⟨w, hw, h0.1, h0.2, rfl,
        (pyRound4_bounds w h0.1 h0.2).1, (pyRound4_bounds w h0.1 h0.2).2⟩
    · simp [BuyerProfile.validate_confidence, if_neg h0] at hconf

/-- C1 witness: `0.12345` is accepted and stored as `0.1234` (half-to-even);
`1.5` and `-1` are rejected. -/
theorem confidence_validation_C1_witness :
    CompanyProfile.validate_confidence (mkRat 12345 100000)
      = some (mkRat 1234 10000)
    ∧ BuyerProfile.validate_confidence (mkRat 3 2) = none
    ∧ CompanyProfile.validate_confidence (-1) = none := by
  refine ⟨?_, ?_, ?_⟩
  · have h := (confidence_validation_C1 (mkRat 12345 100000)).1 (by decide)
    rw [h.1]
    rfl
  · exact ((confidence_validation_C1 (mkRat 3 2)).2.1 (by decide)).2
  · exact ((confidence_validation_C1 (-1)).2.1 (by decide)).1

/-! ## C4: schema inference -/

/-- C4: `infer_schema` is a pure total function of the filename: it
lower-cases the filename and returns the variant of the first registry
keyword (in insertion order) occurring as a substring, defaulting to the
company variant; in particular `buyer_pe_fund.txt` resolves to the buyer
variant, `acme_company.txt` and `report.txt` to the company variant, and
matching is case-insensitive. -/
theorem infer_schema_C4 :
    (∀ f : List Char,
      infer_schema f =
        (((SCHEMA_REGISTRY.find? fun kv => containsSub kv.1 (lowerStr f)).map
          Prod.snd).getD SchemaClass.companyProfile))
    ∧ infer_schema "buyer_pe_fund.txt".toList = SchemaClass.buyerProfile
    ∧ infer_schema "acme_company.txt".toList = SchemaClass.companyProfile
    ∧ infer_schema "report.txt".toList = SchemaClass.companyProfile
    ∧ infer_schema "BUYER.TXT".toList = SchemaClass.buyerProfile
    ∧ (∀ f : List Char,
        (∀ kv ∈ SCHEMA_REGISTRY, containsSub kv.1 (lowerStr f) = false) →
        infer_schema f = SchemaClass.companyProfile) := by
  have gen : ∀ (reg : List (List Char × SchemaClass)) (nl : List Char),
      inferFromRegistry reg nl =
        (((reg.find? fun kv => containsSub kv.1 nl).map Prod.snd).getD
          SchemaClass.companyProfile) := by
    intro reg nl
    induction reg with
    | nil => rfl
    | cons kv rest ih =>
      obtain ⟨kw, sc⟩ := kv
      by_cases h : containsSub kw nl
      · simp [inferFromRegistry, List.find?, h]
      · simp [inferFromRegistry, List.find?, h, ih]
  refine ⟨fun f => gen _ _, by decide, by decide, by decide, by decide, ?_⟩
  intro f hf
  rw [infer_schema, gen]
  have hnone : SCHEMA_REGISTRY.find?
      (fun kv => containsSub kv.1 (lowerStr f)) = none := by
    apply List.find?_eq_none.mpr
    intro kv hkv
    simp [hf kv hkv]
  rw [hnone]
  rfl

/-- C4 witness: the no-keyword default clause applied to `report.txt`. -/
theorem infer_schema_C4_witness :
    infer_schema "report.txt".toList = SchemaClass.companyProfile :=
  infer_schema_C4.2.2.2.2.2 "report.txt".toList (by decide)

/-! ## C2, C3: retry policy of the extraction client -/

/-- C2 (code bug): a client whose only failure is a transport-level
`httpx.ConnectError` on the first attempt does not yield success with 2
attempts; the exception escapes `extract_to_json`'s `except` clauses (which
name only `HTTPStatusError`, `JSONDecodeError`, `KeyError`, `ValueError`)
after exactly 1 attempt, and no profile is returned. -/
theorem retry_policy_C2_code_bug :
    extract_to_json c2FailingClient = ExtractOutcome.raised PyExc.connectError 1
    ∧ ∀ (p : ProfileVal) (a : Nat),
        extract_to_json c2FailingClient ≠ ExtractOutcome.ok p a := by
  refine ⟨rfl, ?_⟩
  intro p a h
  rw [show extract_to_json c2FailingClient
      = ExtractOutcome.raised PyExc.connectError 1 from rfl] at h
  exact ExtractOutcome.noConfusion h

/-- C3 (code bug): of the four failure kinds, a transport-level failure
(`httpx.ReadTimeout`) propagates out of `extract_to_json` after the first
attempt — it is not treated as a retryable attempt failure — while a non-2xx
`HTTPStatusError`, a JSON-parse failure and a schema-validation failure are
each retried until the `MAX_RETRIES + 1` attempt budget is exhausted. -/
theorem transport_retry_C3_code_bug :
    extract_to_json c3TimeoutClient = ExtractOutcome.raised PyExc.readTimeout 1
    ∧ extract_to_json c3Http500Client
        = ExtractOutcome.runtimeError (some (PyExc.httpStatusError 500))
            (MAX_RETRIES + 1)
    ∧ extract_to_json c3ParseFailClient
        = ExtractOutcome.runtimeError (some PyExc.jsonDecodeError)
            (MAX_RETRIES + 1)
    ∧ extract_to_json c3ValidationFailClient
        = ExtractOutcome.runtimeError (some PyExc.validationError)
            (MAX_RETRIES + 1) :=
  ⟨rfl, rfl, rfl, rfl⟩

/-- The attempt counter of the loop never exceeds the remaining budget plus
the attempts already made. -/
theorem extractAttemptLoop_attempts_le {α : Type}
    (client : Nat → Except PyExc α) :
    ∀ (remaining made : Nat) (last : Option PyExc),
      (extractAttemptLoop client remaining made last).attempts
        ≤ remaining + made := by
  intro remaining
  induction remaining with
  | zero => intro made last; simp [extractAttemptLoop, ExtractOutcome.attempts]
  | succ n ih =>
    intro made last
    simp only [extractAttemptLoop]
    cases client (made + 1) with
    | ok p => simp [ExtractOutcome.attempts]; omega
    | error e =>
      by_cases hc : e.isCaught
      · simp only [hc, if_true]
        have := ih (made + 1) (some e)
        omega
      · simp only [hc, Bool.false_eq_true, if_false, ExtractOutcome.attempts]
        omega

/-- For every client, `extract_to_json` makes at most `MAX_RETRIES + 1`
attempts. -/
theorem extract_to_json_attempts_le {α : Type}
    (client : Nat → Except PyExc α) :
    (extract_to_json client).attempts ≤ MAX_RETRIES + 1 := by
  have h := extractAttemptLoop_attempts_le client (MAX_RETRIES + 1) 0 none
  simpa [extract_to_json] using h

/-! ## C7, C8: the File Processor boundary -/

/-- C7 counterexample: an error while reading the file's content
(`UnicodeDecodeError` from `filepath.read_text`, which runs before the
`try` block) propagates out of `process_file` instead of being converted
into a failure outcome. -/
theorem process_file_C7_counterexample :
    process_file "doc.txt".toList "CompanyProfile".toList c7ReadFailure
      alwaysParseFailClient okStore
      = Except.error PyExc.unicodeDecodeError := rfl

/-- C7 (amended): every error raised after the file's content has been read —
extraction attempt failures, retry exhaustion, escaped transport errors,
storage failures — is caught at the `process_file` boundary and converted
into an outcome carrying the file's identity and the schema name; failure
outcomes carry company `—`, confidence `0.0` and an error category string.
Only a failure of the read itself propagates. -/
theorem process_file_C7_amended (fileName schemaName raw : List Char)
    (client : List Char → Nat → Except PyExc ProfileVal)
    (store : ProfileVal → Except PyExc Unit) :
    ∃ s : ResultSummary,
      process_file fileName schemaName (Except.ok raw) client store
        = Except.ok s
      ∧ s.file = fileName ∧ s.schemaName = schemaName
      ∧ (s.status = okStatus ∨
         (s.company = dashCompany ∧ s.confidence = 0 ∧
          (s.status = "❌ RuntimeError".toList
            ∨ ∃ e : PyExc, s.status = failStatus e))) := by
  cases hx : extract_to_json (client raw) with
  | ok p a =>
    cases hs : store p with
    | ok u =>
      refine ⟨⟨fileName, p.company_name, schemaName, p.confidence_score,
        okStatus⟩, ?_, rfl, rfl, Or.inl rfl⟩
      simp [process_file, hx, hs]
    | error e =>
      refine ⟨failureSummary fileName schemaName e, ?_, rfl, rfl,
        Or.inr ⟨rfl, rfl, Or.inr ⟨e, rfl⟩⟩⟩
      simp [process_file, hx, hs]
  | runtimeError l a =>
    refine ⟨⟨fileName, dashCompany, schemaName, 0,
      "❌ RuntimeError".toList⟩, ?_, rfl, rfl,
      Or.inr ⟨rfl, rfl, Or.inl rfl⟩⟩
    simp [process_file, hx]
  | raised e a =>
    refine ⟨failureSummary fileName schemaName e, ?_, rfl, rfl,
      Or.inr ⟨rfl, rfl, Or.inr ⟨e, rfl⟩⟩⟩
    simp [process_file, hx]

/-- C7 witness: a run whose extraction always fails yields a caught failure
outcome with the file identity, schema, dash company, confidence `0.0` and a
category string. -/
theorem process_file_C7_amended_witness :
    ∃ s : ResultSummary,
      process_file "doc.txt".toList "CompanyProfile".toList
        (Except.ok "text".toList) alwaysParseFailClient okStore
        = Except.ok s
      ∧ s.file = "doc.txt".toList ∧ s.schemaName = "CompanyProfile".toList
      ∧ (s.status = okStatus ∨
         (s.company = dashCompany ∧ s.confidence = 0 ∧
          (s.status = "❌ RuntimeError".toList
            ∨ ∃ e : PyExc, s.status = failStatus e))) :=
  process_file_C7_amended "doc.txt".toList "CompanyProfile".toList
    "text".toList alwaysParseFailClient okStore

/-- C8 counterexample: extraction succeeds with `sampleProfile`
(company `Acme`, confidence `0.92`) but the storage write fails; the failure
outcome reports company `—` and confidence `0.0` — it does not reflect the
validated profile. -/
theorem process_file_C8_counterexample :
    process_file "acme.txt".toList "CompanyProfile".toList
      (Except.ok "text".toList) sampleOkClient failStore
      = Except.ok ⟨"acme.txt".toList, dashCompany, "CompanyProfile".toList, 0,
          failStatus PyExc.operationalError⟩
    ∧ dashCompany ≠ sampleProfile.company_name
    ∧ (0 : ℚ) ≠ sampleProfile.confidence_score :=
  ⟨rfl, by decide, by decide⟩

/-- C8 (amended): when extraction succeeds but the storage write fails, the
per-file failure outcome does not reflect the validated profile: it carries
the placeholder company `—` and confidence `0.0`, and only the error's type
name (the category string) reports the storage failure. -/
theorem process_file_C8_amended (fileName schemaName raw : List Char)
    (client : List Char → Nat → Except PyExc ProfileVal)
    (store : ProfileVal → Except PyExc Unit)
    (p : ProfileVal) (a : Nat) (e : PyExc)
    (hx : extract_to_json (client raw) = ExtractOutcome.ok p a)
    (hs : store p = Except.error e) :
    process_file fileName schemaName (Except.ok raw) client store
      = Except.ok (failureSummary fileName schemaName e)
    ∧ (failureSummary fileName schemaName e).company = dashCompany
    ∧ (failureSummary fileName schemaName e).confidence = 0 := by
  refine ⟨?_, rfl, rfl⟩
  simp [process_file, hx, hs]

/-- C8 witness: the amended statement applied to the concrete run of the C8
counterexample. -/
theorem process_file_C8_amended_witness :
    process_file "acme.txt".toList "CompanyProfile".toList
      (Except.ok "text".toList) sampleOkClient failStore
      = Except.ok (failureSummary "acme.txt".toList "CompanyProfile".toList
          PyExc.operationalError) :=
  (process_file_C8_amended "acme.txt".toList "CompanyProfile".toList
    "text".toList sampleOkClient failStore sampleProfile 1
    PyExc.operationalError rfl rfl).1

/-! ## C9, C10: pydantic validation of key_contacts and extra keys -/

theorem asObj_eq_some (x : JsonVal) (f : List (List Char × JsonVal))
    (h : asObj x = some f) : x = JsonVal.obj f := by
  cases x <;> simp_all [asObj]

theorem mapM_asObj_eq :
    ∀ (xs : List JsonVal) (ds : List (List (List Char × JsonVal))),
      xs.mapM asObj = some ds → xs = ds.map JsonVal.obj := by
  intro xs
  induction xs with
  | nil =>
    intro ds h
    simp only [List.mapM_nil, pure, Option.some.injEq] at h
    subst h
    rfl
  | cons x t ih =>
    intro ds h
    rw [List.mapM_cons] at h
    simp only [bind, Option.bind_eq_some, pure, Option.some.injEq] at h
    obtain ⟨y, hy, ys, hys, hds⟩ := h
    subst hds
    rw [asObj_eq_some x y hy, ih ys hys]
    rfl

theorem getDictListField_inv (kvs : List (List Char × JsonVal)) (k : List Char)
    (ds : List (List (List Char × JsonVal)))
    (h : getDictListField kvs k = some ds) :
    (lookupKey kvs k = none ∧ ds = [])
    ∨ ∃ xs, lookupKey kvs k = some (JsonVal.arr xs)
        ∧ xs = ds.map JsonVal.obj := by
  unfold getDictListField at h
  cases hl : lookupKey kvs k with
  | none =>
    rw [hl] at h
    simp only [Option.some.injEq] at h
    exact Or.inl ⟨rfl, h.symm⟩
  | some v =>
    rw [hl] at h
    rcases v with _ | b | q | s | xs | fs
    · simp at h
    · simp at h
    · simp at h
    · simp at h
    · exact Or.inr ⟨xs, rfl, mapM_asObj_eq xs ds h⟩
    · simp at h

/-- C9 counterexample: a parsed buyer object whose `key_contacts` record
carries a non-string value (`"years": 7`) validates successfully — it is not
rejected, because the source declares `key_contacts: list[dict]` with no
constraint on the record's values. -/
theorem key_contacts_C9_counterexample :
    validateBuyerProfile buyerContactsObj = some buyerContactsProfile := rfl

/-- C9 (amended): `BuyerProfile` validation enforces that `key_contacts` is a
list of key-value records (each element must be a JSON object), defaulting to
the empty list when the key is absent, but places no constraint on the
records' values: a present value must be exactly an array of the validated
profile's records, whose values are arbitrary JSON values. -/
theorem key_contacts_C9_amended (kvs : List (List Char × JsonVal))
    (p : BuyerProfile) (h : validateBuyerProfile kvs = some p) :
    (lookupKey kvs "key_contacts".toList = none → p.key_contacts = [])
    ∧ (∀ j, lookupKey kvs "key_contacts".toList = some j →
        j = JsonVal.arr (p.key_contacts.map JsonVal.obj)) := by
  simp only [validateBuyerProfile, bind, Option.bind_eq_some,
    Option.some.injEq] at h
  obtain ⟨name, hname, ind, hind, ai, hai, br, hbr, kc, hkc, dh, hdh,
    w, hw, conf, hconf, hfin⟩ := h
  subst hfin
  have hinv := getDictListField_inv kvs _ kc hkc
  constructor
  · intro hnone
    rcases hinv with ⟨_, hkcnil⟩ | ⟨xs, hlx, _⟩
    · simpa using hkcnil
    · rw [hnone] at hlx
      exact absurd hlx (by simp)
  · intro j hj
    rcases hinv with ⟨hlnone, _⟩ | ⟨xs, hlx, hxs⟩
    · rw [hj] at hlnone
      exact absurd hlnone (by simp)
    · rw [hj] at hlx
      simp only [Option.some.injEq] at hlx
      subst hlx
      simpa using hxs

/-- C9 witness: the amended characterization applied to the concrete buyer
object: its `key_contacts` value is exactly the array of the validated
profile's records. -/
theorem key_contacts_C9_amended_witness :
    JsonVal.arr [JsonVal.obj [("name".toList, JsonVal.str "Bill".toList),
      ("years".toList, JsonVal.num 7)]]
      = JsonVal.arr (buyerContactsProfile.key_contacts.map JsonVal.obj) :=
  (key_contacts_C9_amended buyerContactsObj buyerContactsProfile rfl).2 _ rfl

theorem lookupKey_restrict (names : List (List Char))
    (kvs : List (List Char × JsonVal)) (k : List Char) (h : k ∈ names) :
    lookupKey (restrictKeys names kvs) k = lookupKey kvs k := by
  induction kvs with
  | nil => rfl
  | cons kv t ih =>
    obtain ⟨k', v⟩ := kv
    by_cases hk : k' = k
    · subst hk
      simp [restrictKeys, List.filter_cons, h, lookupKey]
    · by_cases hm : k' ∈ names
      · simp [restrictKeys, List.filter_cons, hm, lookupKey, hk, ih]
        exact ih
      · simp [restrictKeys, List.filter_cons, hm, lookupKey, hk]
        exact ih

theorem validateCompanyProfile_congr (kvs₁ kvs₂ : List (List Char × JsonVal))
    (h : ∀ k, k ∈ companyFieldNames → lookupKey kvs₁ k = lookupKey kvs₂ k) :
    validateCompanyProfile kvs₁ = validateCompanyProfile kvs₂ := by
  simp only [validateCompanyProfile, getStrField, getOptStrField,
    getOptIntField, getStrListField, getFloatField,
    h _ (by decide : "company_name".toList ∈ companyFieldNames),
    h _ (by decide : "industry".toList ∈ companyFieldNames),
    h _ (by decide : "headquarters".toList ∈ companyFieldNames),
    h _ (by decide : "employee_count".toList ∈ companyFieldNames),
    h _ (by decide : "revenue_range".toList ∈ companyFieldNames),
    h _ (by decide : "key_products".toList ∈ companyFieldNames),
    h _ (by decide : "description".toList ∈ companyFieldNames),
    h _ (by decide : "confidence_score".toList ∈ companyFieldNames)]

theorem validateBuyerProfile_congr (kvs₁ kvs₂ : List (List Char × JsonVal))
    (h : ∀ k, k ∈ buyerFieldNames → lookupKey kvs₁ k = lookupKey kvs₂ k) :
    validateBuyerProfile kvs₁ = validateBuyerProfile kvs₂ := by
  simp only [validateBuyerProfile, getStrField, getOptStrField,
    getStrListField, getDictListField, getFloatField,
    h _ (by decide : "company_name".toList ∈ buyerFieldNames),
    h _ (by decide : "industry".toList ∈ buyerFieldNames),
    h _ (by decide : "acquisition_interests".toList ∈ buyerFieldNames),
    h _ (by decide : "budget_range".toList ∈ buyerFieldNames),
    h _ (by decide : "key_contacts".toList ∈ buyerFieldNames),
    h _ (by decide : "deal_history".toList ∈ buyerFieldNames),
    h _ (by decide : "confidence_score".toList ∈ buyerFieldNames)]

/-- C10: for every parsed JSON object, profile validation ignores keys not
declared in the target schema — validating the object is the same as
validating its restriction to the declared field names, so extra keys are
never a validation error and never reach the validated profile — and the
canonical serialization of a validated profile holds exactly the declared
field names. -/
theorem extra_keys_ignored_C10 (kvs : List (List Char × JsonVal)) :
    validateCompanyProfile (restrictKeys companyFieldNames kvs)
      = validateCompanyProfile kvs
    ∧ validateBuyerProfile (restrictKeys buyerFieldNames kvs)
      = validateBuyerProfile kvs
    ∧ (∀ p, validateCompanyProfile kvs = some p →
        jsonObjKeys (dumpCompanyProfile p) = companyFieldNames)
    ∧ (∀ p, validateBuyerProfile kvs = some p →
        jsonObjKeys (dumpBuyerProfile p) = buyerFieldNames) :=
  ⟨validateCompanyProfile_congr _ _
      (fun k hk => lookupKey_restrict companyFieldNames kvs k hk),
    validateBuyerProfile_congr _ _
      (fun k hk => lookupKey_restrict buyerFieldNames kvs k hk),
    fun _ _ => rfl, fun _ _ => rfl⟩

/-- C10 witness: a company object with an undeclared `extra_field` key
validates exactly like its restriction to the declared keys, it validates
successfully, and the serialized profile holds exactly the declared keys. -/
theorem extra_keys_ignored_C10_witness :
    validateCompanyProfile (restrictKeys companyFieldNames companyObjWithExtra)
      = validateCompanyProfile companyObjWithExtra
    ∧ validateCompanyProfile companyObjWithExtra = some sampleCompany
    ∧ jsonObjKeys (dumpCompanyProfile sampleCompany) = companyFieldNames :=
  ⟨(extra_keys_ignored_C10 companyObjWithExtra).1, rfl,
    (extra_keys_ignored_C10 companyObjWithExtra).2.2.1 sampleCompany rfl⟩

/-! ## C5: response parser failures -/

theorem rbrace_in_dropWhile_iff (l : List Char) :
    rbrace ∈ l.dropWhile (fun c => decide (c ≠ lbrace))
    ↔ ∃ l1 l2 l3, l = l1 ++ lbrace :: (l2 ++ rbrace :: l3) := by
  induction l with
  | nil =>
    simp only [List.dropWhile_nil, List.not_mem_nil, false_iff]
    rintro ⟨l1, l2, l3, h⟩
    cases l1 <;> simp at h
  | cons c t ih =>
    by_cases hc : c = lbrace
    · subst hc
      rw [List.dropWhile_cons_of_neg (by simp)]
      constructor
      · intro hmem
        have hmem' : rbrace ∈ t := by
          rcases List.mem_cons.mp hmem with h | h
          · exact absurd h.symm (by decide)
          · exact h
        obtain ⟨l2, l3, ht⟩ := List.append_of_mem hmem'
        exact ⟨[], l2, l3, by simp [ht]⟩
      · rintro ⟨l1, l2, l3, h⟩
        cases l1 with
        | nil =>
          simp only [List.nil_append, List.cons.injEq] at h
          rw [h.2]
          simp
        | cons a l1' =>
          simp only [List.cons_append, List.cons.injEq] at h
          rw [h.2]
          simp
    · rw [List.dropWhile_cons_of_pos (by simpa using hc)]
      rw [ih]
      constructor
      · rintro ⟨l1, l2, l3, h⟩
        exact ⟨c :: l1, l2, l3, by simp [h]⟩
      · rintro ⟨l1, l2, l3, h⟩
        cases l1 with
        | nil =>
          simp only [List.nil_append, List.cons.injEq] at h
          exact absurd h.1 hc
        | cons a l1' =>
          simp only [List.cons_append, List.cons.injEq] at h
          exact ⟨l1', l2, l3, h.2⟩

theorem braceSpan_eq_none_iff (l : List Char) :
    braceSpan l = none
    ↔ ¬ ∃ l1 l2 l3, l = l1 ++ lbrace :: (l2 ++ rbrace :: l3) := by
  rw [← rbrace_in_dropWhile_iff]
  unfold braceSpan
  constructor
  · intro h hmem
    by_cases hnil :
        ((l.dropWhile (fun c => decide (c ≠ lbrace))).reverse.dropWhile
          (fun c => decide (c ≠ rbrace))) = []
    · have hall := List.dropWhile_eq_nil_iff.mp hnil
      have : rbrace ∈ (l.dropWhile (fun c => decide (c ≠ lbrace))).reverse :=
        List.mem_reverse.mpr hmem
      have := hall _ this
      simp at this
    · simp only [if_neg hnil] at h
      exact Option.noConfusion h
  · intro hno
    rw [if_pos ?_]
    rw [List.dropWhile_eq_nil_iff]
    intro c hcmem
    by_contra hcr
    simp only [decide_eq_true_eq, Decidable.not_not] at hcr
    subst hcr
    exact hno (List.mem_reverse.mp hcmem)

/-- C5 (amended): the no-span failure of `extract_json_from_text` — which
occurs exactly when the cleaned text has no substring starting at an opening
brace and ending at a later closing brace — raises the `ValueError` carrying
the bounded 200-character prefix of the raw input; but when the brace span
exists and is not valid JSON, the raised `json.JSONDecodeError` carries the
whole offending span, not a bounded excerpt. -/
theorem parse_error_excerpt_C5_amended (raw : List Char) :
    (braceSpan (cleanResponse raw) = none →
      extract_json_from_text raw
        = Except.error (ParseErr.noJsonFound (raw.take 200))
      ∧ (raw.take 200).length ≤ 200
      ∧ ∃ rest, raw = raw.take 200 ++ rest)
    ∧ (∀ span, braceSpan (cleanResponse raw) = some span →
        jsonLoads span = none →
        extract_json_from_text raw
          = Except.error (ParseErr.jsonDecodeError span))
    ∧ (braceSpan (cleanResponse raw) = none ↔
        ¬ ∃ l1 l2 l3, cleanResponse raw
          = l1 ++ lbrace :: (l2 ++ rbrace :: l3)) := by
  refine ⟨?_, ?_, braceSpan_eq_none_iff _⟩
  · intro hnone
    refine ⟨?_, ?_, ⟨raw.drop 200, (List.take_append_drop 200 raw).symm⟩⟩
    · unfold extract_json_from_text
      rw [hnone]
    · exact List.length_take_le 200 raw
  · intro span hspan hload
    simp [extract_json_from_text, hspan, hload]

set_option maxRecDepth 8000 in
/-- C5 counterexample: on a 222-character response whose brace span is not
valid JSON, the parser raises `json.JSONDecodeError` carrying the whole
222-character span — not a truncated, bounded excerpt — and in particular not
the `ValueError` with the 200-character excerpt. -/
theorem parse_error_excerpt_C5_counterexample :
    extract_json_from_text c5LongInput
      = Except.error (ParseErr.jsonDecodeError c5LongInput)
    ∧ 200 < (ParseErr.payload (ParseErr.jsonDecodeError c5LongInput)).length
    ∧ ParseErr.jsonDecodeError c5LongInput
        ≠ ParseErr.noJsonFound (c5LongInput.take 200) :=
  ⟨rfl, by decide, by decide⟩

set_option maxRecDepth 2000 in
/-- C5 witness: the amended statement at two concrete inputs — a response
with no brace pair fails with the 200-bounded excerpt, and a bad-JSON span
fails with the decode error carrying that span. -/
theorem parse_error_excerpt_C5_amended_witness :
    (extract_json_from_text "no json here".toList
        = Except.error (ParseErr.noJsonFound ("no json here".toList.take 200))
      ∧ ("no json here".toList.take 200).length ≤ 200
      ∧ ∃ rest, "no json here".toList = "no json here".toList.take 200 ++ rest)
    ∧ extract_json_from_text (lbrace :: 'x' :: [rbrace])
        = Except.error (ParseErr.jsonDecodeError (lbrace :: 'x' :: [rbrace])) :=
  ⟨(parse_error_excerpt_C5_amended "no json here".toList).1 rfl,
   (parse_error_excerpt_C5_amended (lbrace :: 'x' :: [rbrace])).2.1 _ rfl rfl⟩

/-! ## C6: fence round-trip -/

theorem length_dropWhile_le' (p : Char → Bool) (l : List Char) :
    (l.dropWhile p).length ≤ l.length := by
  induction l with
  | nil => simp
  | cons a t ih =>
    by_cases hp : p a
    · rw [List.dropWhile_cons_of_pos hp]
      simp only [List.length_cons]
      omega
    · rw [List.dropWhile_cons_of_neg hp]

theorem stripJsonTag_length_le (l : List Char) :
    (stripJsonTag l).length ≤ l.length := by
  unfold stripJsonTag
  split
  · split
    · simp only [List.length_cons]; omega
    · exact Nat.le_refl _
  · exact Nat.le_refl _

theorem fence_cond_shape {c : Char} {t : List Char}
    (h : c = btick ∧ t.head? = some btick ∧ t.tail.head? = some btick) :
    ∃ rest, c = btick ∧ t = btick :: btick :: rest := by
  obtain ⟨hc, hh, hth⟩ := h
  cases t with
  | nil => simp at hh
  | cons a t1 =>
    simp only [List.head?_cons, Option.some.injEq] at hh
    subst hh
    cases t1 with
    | nil => simp at hth
    | cons b t2 =>
      simp only [List.tail_cons, List.head?_cons, Option.some.injEq] at hth
      subst hth
      exact ⟨t2, hc, rfl⟩

theorem subFencesF_congr : ∀ (n m : Nat) (l : List Char),
    l.length ≤ n → l.length ≤ m → subFencesF n l = subFencesF m l := by
  intro n
  induction n with
  | zero =>
    intro m l hn _
    have : l = [] := List.eq_nil_of_length_eq_zero (Nat.le_zero.mp hn)
    subst this
    cases m <;> rfl
  | succ n ih =>
    intro m l hn hm
    cases m with
    | zero =>
      have : l = [] := List.eq_nil_of_length_eq_zero (Nat.le_zero.mp hm)
      subst this
      rfl
    | succ m' =>
      cases l with
      | nil => rfl
      | cons c t =>
        simp only [subFencesF]
        by_cases hcond : c = btick ∧ t.head? = some btick
            ∧ t.tail.head? = some btick
        · rw [if_pos hcond, if_pos hcond]
          obtain ⟨rest, hc, ht⟩ := fence_cond_shape hcond
          subst ht
          simp only [List.tail_cons]
          have h1 := length_dropWhile_le' isPySpace (stripJsonTag rest)
          have h2 := stripJsonTag_length_le rest
          simp only [List.length_cons] at hn hm
          apply ih <;> omega
        · rw [if_neg hcond, if_neg hcond]
          have ht : t.length ≤ n := by
            simp only [List.length_cons] at hn; omega
          have ht' : t.length ≤ m' := by
            simp only [List.length_cons] at hm; omega
          rw [ih m' t ht ht']

theorem subFences_cons (c : Char) (t : List Char) :
    subFences (c :: t) =
      if c = btick ∧ t.head? = some btick ∧ t.tail.head? = some btick then
        subFences ((stripJsonTag t.tail.tail).dropWhile isPySpace)
      else c :: subFences t := by
  unfold subFences
  simp only [List.length_cons, subFencesF]
  by_cases hcond : c = btick ∧ t.head? = some btick ∧ t.tail.head? = some btick
  · rw [if_pos hcond, if_pos hcond]
    obtain ⟨rest, hc, ht⟩ := fence_cond_shape hcond
    subst ht
    simp only [List.tail_cons]
    refine subFencesF_congr _ _ _ ?_ (Nat.le_refl _)
    have h1 := length_dropWhile_le' isPySpace (stripJsonTag rest)
    have h2 := stripJsonTag_length_le rest
    simp only [List.length_cons]
    omega
  · rw [if_neg hcond, if_neg hcond]

theorem getLast?_decomp (l : List Char) (c : Char) (h : l.getLast? = some c) :
    ∃ l', l = l' ++ [c] := by
  induction l with
  | nil => simp at h
  | cons a t ih =>
    cases t with
    | nil =>
      simp only [List.getLast?_singleton, Option.some.injEq] at h
      subst h
      exact ⟨[], rfl⟩
    | cons b t' =>
      rw [List.getLast?_cons_cons] at h
      obtain ⟨l', hl⟩ := ih h
      exact ⟨a :: l', by rw [hl]; rfl⟩

theorem dropWhile_append_last (p : Char → Bool) (q : List Char) (c : Char)
    (hc : p c = false) (s : List Char) :
    ((q ++ [c]) ++ s).dropWhile p = (q ++ [c]).dropWhile p ++ s := by
  induction q with
  | nil =>
    simp only [List.nil_append, List.singleton_append]
    rw [List.dropWhile_cons_of_neg (by simp [hc]),
      List.dropWhile_cons_of_neg (by simp [hc])]
    simp
  | cons a t ih =>
    by_cases hp : p a
    · simp only [List.cons_append, List.dropWhile_cons_of_pos hp]
      exact ih
    · simp only [List.cons_append, List.dropWhile_cons_of_neg hp]

theorem dropWhile_last_shape (p : Char → Bool) (q : List Char) (c : Char)
    (hc : p c = false) :
    ∃ q', (q ++ [c]).dropWhile p = q' ++ [c] := by
  induction q with
  | nil =>
    refine ⟨[], ?_⟩
    simp only [List.nil_append]
    rw [List.dropWhile_cons_of_neg (by simp [hc])]
  | cons a t ih =>
    by_cases hp : p a
    · simp only [List.cons_append, List.dropWhile_cons_of_pos hp]
      exact ih
    · exact ⟨a :: t, by simp [List.dropWhile_cons_of_neg hp]⟩

theorem stripJsonTag_cons4 (a b c d : Char) (m : List Char) :
    stripJsonTag (a :: b :: c :: d :: m)
      = if a = 'j' ∧ b = 's' ∧ c = 'o' ∧ d = 'n' then m
        else a :: b :: c :: d :: m := rfl

theorem stripJsonTag_of_ne_j (a : Char) (m : List Char) (h : ¬ a = 'j') :
    stripJsonTag (a :: m) = a :: m := by
  rcases m with _ | ⟨x, _ | ⟨y, _ | ⟨z, w⟩⟩⟩ <;> simp [stripJsonTag, h]

theorem stripJsonTag_of_ne_s (a b : Char) (m : List Char) (h : ¬ b = 's') :
    stripJsonTag (a :: b :: m) = a :: b :: m := by
  rcases m with _ | ⟨x, _ | ⟨y, w⟩⟩ <;> simp [stripJsonTag, h]

theorem stripJsonTag_of_ne_o (a b c : Char) (m : List Char) (h : ¬ c = 'o') :
    stripJsonTag (a :: b :: c :: m) = a :: b :: c :: m := by
  rcases m with _ | ⟨x, w⟩ <;> simp [stripJsonTag, h]

theorem stripJsonTag_of_ne_n (a b c d : Char) (m : List Char) (h : ¬ d = 'n') :
    stripJsonTag (a :: b :: c :: d :: m) = a :: b :: c :: d :: m := by
  simp [stripJsonTag, h]

theorem stripJsonTag_json (m : List Char) :
    stripJsonTag ('j' :: 's' :: 'o' :: 'n' :: m) = m := by
  simp [stripJsonTag]

theorem stripJsonTag_append_last (q s : List Char) :
    stripJsonTag ((q ++ [rbrace]) ++ s) = stripJsonTag (q ++ [rbrace]) ++ s := by
  rcases q with _ | ⟨a, _ | ⟨b, _ | ⟨c, _ | ⟨d, r⟩⟩⟩⟩
  · simp only [List.nil_append, List.singleton_append]
    rw [stripJsonTag_of_ne_j _ _ (by decide),
      stripJsonTag_of_ne_j _ _ (by decide)]
    rfl
  · simp only [List.cons_append, List.nil_append]
    rw [stripJsonTag_of_ne_s _ _ _ (by decide),
      stripJsonTag_of_ne_s _ _ _ (by decide)]
    rfl
  · simp only [List.cons_append, List.nil_append]
    rw [stripJsonTag_of_ne_o _ _ _ _ (by decide),
      stripJsonTag_of_ne_o _ _ _ _ (by decide)]
    rfl
  · simp only [List.cons_append, List.nil_append]
    rw [stripJsonTag_of_ne_n _ _ _ _ _ (by decide),
      stripJsonTag_of_ne_n _ _ _ _ _ (by decide)]
    rfl
  · simp only [List.cons_append]
    rw [stripJsonTag_cons4, stripJsonTag_cons4]
    by_cases hcond : a = 'j' ∧ b = 's' ∧ c = 'o' ∧ d = 'n'
    · rw [if_pos hcond, if_pos hcond]
    · rw [if_neg hcond, if_neg hcond]
      simp

theorem stripJsonTag_last_shape (q : List Char) :
    ∃ q', stripJsonTag (q ++ [rbrace]) = q' ++ [rbrace] := by
  rcases q with _ | ⟨a, _ | ⟨b, _ | ⟨c, _ | ⟨d, r⟩⟩⟩⟩
  · exact ⟨[], by simp [stripJsonTag]⟩
  · exact ⟨[a], by simp [stripJsonTag]⟩
  · exact ⟨[a, b], by simp [stripJsonTag]⟩
  · refine ⟨[a, b, c], ?_⟩
    simp only [List.cons_append, List.nil_append]
    rw [stripJsonTag_of_ne_n _ _ _ _ _ (by decide)]
  · simp only [List.cons_append]
    rw [stripJsonTag_cons4]
    by_cases hcond : a = 'j' ∧ b = 's' ∧ c = 'o' ∧ d = 'n'
    · rw [if_pos hcond]
      exact ⟨r, rfl⟩
    · rw [if_neg hcond]
      exact ⟨a :: b :: c :: d :: r, by simp⟩

theorem subFences_append : ∀ (n : Nat) (l s : List Char), l.length ≤ n →
    l.getLast? = some rbrace →
    subFences (l ++ s) = subFences l ++ subFences s := by
  intro n
  induction n with
  | zero =>
    intro l s hlen hlast
    have : l = [] := List.eq_nil_of_length_eq_zero (Nat.le_zero.mp hlen)
    subst this
    simp at hlast
  | succ n ih =>
    intro l s hlen hlast
    cases l with
    | nil => simp at hlast
    | cons c t =>
      rcases t with _ | ⟨x, _ | ⟨y, t3⟩⟩
      · have hc : c = rbrace := by simpa using hlast
        subst hc
        simp only [List.cons_append, List.nil_append]
        rw [subFences_cons rbrace s]
        rw [if_neg (fun h => absurd h.1 (by decide))]
        rw [show subFences [rbrace] = [rbrace] from rfl]
        rfl
      · have hx : x = rbrace := by
          rw [List.getLast?_cons_cons] at hlast
          simpa using hlast
        subst hx
        simp only [List.cons_append, List.nil_append]
        rw [subFences_cons c (rbrace :: s), subFences_cons c [rbrace]]
        rw [if_neg (fun h => absurd (Option.some.inj h.2.1) (by decide)),
          if_neg (fun h => absurd (Option.some.inj h.2.1) (by decide))]
        rw [subFences_cons rbrace s]
        rw [if_neg (fun h => absurd h.1 (by decide))]
        rw [show subFences [rbrace] = [rbrace] from rfl]
        rfl
      · have hlast3 : (x :: y :: t3).getLast? = some rbrace := by
          rw [List.getLast?_cons_cons] at hlast
          exact hlast
        simp only [List.cons_append]
        rw [subFences_cons c (x :: y :: (t3 ++ s)), subFences_cons c (x :: y :: t3)]
        by_cases hcond : c = btick ∧ x = btick ∧ y = btick
        · rw [if_pos ⟨hcond.1, by simp [hcond.2.1], by simp [hcond.2.2]⟩,
            if_pos ⟨hcond.1, by simp [hcond.2.1], by simp [hcond.2.2]⟩]
          simp only [List.tail_cons]
          obtain ⟨hcb, hxb, hyb⟩ := hcond
          have ht3 : t3.getLast? = some rbrace := by
            subst hxb hyb
            rcases t3 with _ | ⟨z, t4⟩
            · exfalso
              have h1 : (btick : Char) = rbrace := by simpa using hlast3
              exact absurd h1 (by decide)
            · rw [List.getLast?_cons_cons, List.getLast?_cons_cons] at hlast3
              exact hlast3
          obtain ⟨q, rfl⟩ := getLast?_decomp t3 rbrace ht3
          rw [stripJsonTag_append_last]
          obtain ⟨q2, hq2⟩ := stripJsonTag_last_shape q
          rw [hq2]
          rw [dropWhile_append_last isPySpace q2 rbrace (by decide)]
          obtain ⟨q3, hq3⟩ := dropWhile_last_shape isPySpace q2 rbrace (by decide)
          rw [hq3]
          apply ih
          · have h1 := length_dropWhile_le' isPySpace (stripJsonTag (q ++ [rbrace]))
            rw [hq2, hq3] at h1
            have h2 := stripJsonTag_length_le (q ++ [rbrace])
            rw [hq2] at h2
            simp only [List.length_cons, List.length_append,
              List.length_singleton] at hlen h1 h2 ⊢
            omega
          · exact List.getLast?_concat _
        · rw [if_neg (fun h => hcond ⟨h.1, by simpa using h.2.1,
              by simpa using h.2.2⟩),
            if_neg (fun h => hcond ⟨h.1, by simpa using h.2.1,
              by simpa using h.2.2⟩)]
          rw [← List.cons_append, ← List.cons_append]
          rw [ih (x :: y :: t3) s
            (by simp only [List.length_cons] at hlen ⊢; omega) hlast3]
          rfl

theorem subFences_fenceWrap (j : List Char) (h1 : j.head? = some lbrace)
    (h2 : j.getLast? = some rbrace) :
    subFences (fenceWrap j) = subFences j ++ ['\n'] := by
  obtain ⟨jt, rfl⟩ : ∃ jt, j = lbrace :: jt := by
    cases j with
    | nil => simp at h1
    | cons a t =>
      simp only [List.head?_cons, Option.some.injEq] at h1
      exact ⟨t, by rw [h1]⟩
  simp only [fenceWrap, fenceOpen, fenceClose, List.cons_append,
    List.nil_append]
  rw [subFences_cons]
  rw [if_pos ⟨rfl, rfl, rfl⟩]
  simp only [List.tail_cons]
  rw [stripJsonTag_json]
  rw [List.dropWhile_cons_of_pos (by decide)]
  rw [List.dropWhile_cons_of_neg (by decide)]
  rw [← List.cons_append]
  rw [subFences_append (lbrace :: jt).length (lbrace :: jt)
    ['\n', btick, btick, btick] (Nat.le_refl _) h2]
  rw [show subFences ['\n', btick, btick, btick] = ['\n'] from rfl]

theorem pyStrip_append_newline (x : List Char) :
    pyStrip (x ++ ['\n']) = pyStrip x := by
  unfold pyStrip rstripWs
  rw [List.reverse_append]
  simp only [List.reverse_cons, List.reverse_nil, List.nil_append,
    List.singleton_append]
  rw [List.dropWhile_cons_of_pos (by decide)]

theorem cleanResponse_fenceWrap (j : List Char) (h1 : j.head? = some lbrace)
    (h2 : j.getLast? = some rbrace) :
    cleanResponse (fenceWrap j) = cleanResponse j := by
  unfold cleanResponse
  rw [subFences_fenceWrap j h1 h2]
  rw [show ('\n' :: ([] : List Char)) = ['\n'] from rfl]
  rw [pyStrip_append_newline]

/-- C6: for every JSON-object-shaped text `j` (first character an opening
brace, last character a closing brace), the response parser behaves the same
on `j` wrapped in markdown code fences as on `j` directly: the cleaned texts
coincide, and the fenced response parses to an object exactly when the bare
text does, with the same object. -/
theorem fence_roundtrip_C6 (j : List Char) (h1 : j.head? = some lbrace)
    (h2 : j.getLast? = some rbrace) :
    cleanResponse (fenceWrap j) = cleanResponse j
    ∧ (∀ v : JsonVal, extract_json_from_text (fenceWrap j) = Except.ok v
        ↔ extract_json_from_text j = Except.ok v)
    ∧ (∀ span, braceSpan (cleanResponse j) = some span →
        extract_json_from_text (fenceWrap j) = extract_json_from_text j) := by
  have hclean := cleanResponse_fenceWrap j h1 h2
  refine ⟨hclean, ?_, ?_⟩
  · intro v
    unfold extract_json_from_text
    rw [hclean]
    cases braceSpan (cleanResponse j) with
    | none => simp
    | some span => exact Iff.rfl
  · intro span hspan
    unfold extract_json_from_text
    rw [hclean, hspan]

/-- C6 witness: the fenced wrapping of the concrete object text parses to the
same object as the bare text. -/
theorem fence_roundtrip_C6_witness :
    extract_json_from_text
        (fenceWrap (lbrace :: ("\"a\": 1".toList ++ [rbrace])))
      = Except.ok (JsonVal.obj [("a".toList, JsonVal.num 1)]) :=
  ((fence_roundtrip_C6 (lbrace :: ("\"a\": 1".toList ++ [rbrace])) rfl
      (by decide)).2.1
    (JsonVal.obj [("a".toList, JsonVal.num 1)])).mpr rfl
